import Mathlib

/-!
Verification of the network-VMU bridge (`vmu_network.h` / `vmu_network.cpp`):
the ASCII-hex frame codec, the transport client's probe and send loops, and
the `NetworkVmuManager` connection-lifecycle state machine.  All definitions
are shallow embeddings of the C++ source; socket results and clock readings
appear as explicit oracle inputs.
-/

namespace VmuConn

/-! ## Data model: `MapleMsg` (vmu_network.h, lines 40-48) -/

/-- Mirror of `struct MapleMsg`: four one-byte header fields and a 1024-byte
payload buffer.  Bytes are `Nat` with a well-formedness bound `< 256`;
`data` is the whole fixed buffer, so a well-formed message has
`data.length = 1024`. -/
structure MapleMsg where
  command : Nat
  destAP : Nat
  originAP : Nat
  size : Nat
  data : List Nat
deriving DecidableEq, Repr

/-- Mirror of `MapleMsg::getDataSize()`: `size * 4`. -/
def MapleMsg.getDataSize (m : MapleMsg) : Nat := m.size * 4

/-- Well-formedness of the embedded struct: every byte field holds a byte
value and the payload buffer has its declared 1024-byte capacity. -/
def MapleMsg.WF (m : MapleMsg) : Prop :=
  m.command < 256 ∧ m.destAP < 256 ∧ m.originAP < 256 ∧ m.size < 256 ∧
    m.data.length = 1024 ∧ ∀ b ∈ m.data, b < 256

instance (m : MapleMsg) : Decidable m.WF := by
  unfold MapleMsg.WF; infer_instance

/-! ## Encoder: `VmuNetworkClient::sendMapleMessage` (vmu_network.cpp 375-396)

The C++ builds the line with `std::ostringstream` under
`std::hex << std::setfill('0')` and `std::setw(2)` before each field:
the minimal lowercase hex digits of the value, left-padded with `'0'` to
width 2.  There is no `std::uppercase` in this version. -/

/-- Minimal lowercase hexadecimal rendering of a value, as the stream
inserter `operator<<` under `std::hex` produces it (`0` renders as "0"). -/
def hexRep (n : Nat) : List Char := Nat.toDigits 16 n

/-- One field formatted under `setw(2)` with fill `'0'`: the minimal hex
digits, left-padded with zeros to width two. -/
def setw2 (n : Nat) : List Char :=
  List.replicate (2 - (hexRep n).length) '0' ++ hexRep n

/-- The full line built by `sendMapleMessage`: the four header bytes, then
one token per payload byte for `i < getDataSize`, single spaces between
fields, and a CR LF terminator. -/
def sendMapleMessage (m : MapleMsg) : List Char :=
  setw2 m.command ++ ' ' :: setw2 m.destAP ++ ' ' :: setw2 m.originAP ++
    ' ' :: setw2 m.size ++
    ((List.range m.getDataSize).map (fun i => ' ' :: setw2 (m.data.getD i 0))).flatten ++
    ['\r', '\n']

/-! ## Decoder: `VmuNetworkClient::receiveMapleMessage` (vmu_network.cpp 398-421)

The C++ zeroes the struct with `memset`, then repeatedly extracts
whitespace-separated tokens with `istringstream >>` for
`i < sizeof(MapleMsg) = 1028`, converting each with
`(u8)std::stoi(byteStr, nullptr, 16)` and writing it to byte `i` of the
struct; extraction failure breaks the loop and the function returns `true`.
`std::stoi` throws (uncaught, so the process dies) when the token has no
hex digits or its value overflows `int`; we model that outcome as `none`. -/

/-- Whitespace in the `std::istream` extraction sense (C `isspace`). -/
def isSpace (c : Char) : Bool :=
  c = ' ' || c = '\t' || c = '\n' || c = '\x0B' || c = '\x0C' || c = '\r'

/-- Token splitter: the sequence of maximal non-whitespace runs, exactly
what repeated `iss >> byteStr` extraction yields. -/
def wordsAux : List Char → List Char → List (List Char)
  | acc, [] => if acc.isEmpty then [] else [acc.reverse]
  | acc, c :: cs =>
    if isSpace c then
      if acc.isEmpty then wordsAux [] cs else acc.reverse :: wordsAux [] cs
    else wordsAux (c :: acc) cs

/-- All tokens of a line. -/
def words (s : List Char) : List (List Char) := wordsAux [] s

/-- Value of a single hexadecimal digit character, if it is one. -/
def hexVal (c : Char) : Option Nat :=
  if '0' ≤ c ∧ c ≤ '9' then some (c.toNat - 48)
  else if 'a' ≤ c ∧ c ≤ 'f' then some (c.toNat - 87)
  else if 'A' ≤ c ∧ c ≤ 'F' then some (c.toNat - 55)
  else none

/-- Longest prefix of hex digits, as digit values, plus the rest. -/
def takeHex : List Char → List Nat × List Char
  | [] => ([], [])
  | c :: cs =>
    match hexVal c with
    | some v => let p := takeHex cs; (v :: p.1, p.2)
    | none => ([], c :: cs)

/-- Numeric value of a big-endian digit list in base 16. -/
def hexValue (ds : List Nat) : Nat := ds.foldl (fun a d => a * 16 + d) 0

/-- Model of `std::stoi(tok, nullptr, 16)` on a whitespace-free token:
optional sign, optional `0x`/`0X` prefix when followed by a hex digit,
then the longest hex-digit run.  `none` models a thrown exception:
`std::invalid_argument` when no digits are consumed, `std::out_of_range`
when the value leaves the `int` range. -/
def stoi16 (s : List Char) : Option Int :=
  let sg : Int × List Char :=
    match s with
    | '-' :: r => (-1, r)
    | '+' :: r => (1, r)
    | r => (1, r)
  let body : List Char :=
    match sg.2 with
    | '0' :: 'x' :: r => if (r.headD ' ' |> hexVal).isSome then r else sg.2
    | '0' :: 'X' :: r => if (r.headD ' ' |> hexVal).isSome then r else sg.2
    | r => r
  let ds := (takeHex body).1
  if ds.isEmpty then none
  else
    let v : Int := sg.1 * (hexValue ds : Int)
    if v < -2147483648 ∨ 2147483647 < v then none else some v

/-- The `(u8)` cast applied to the `std::stoi` result: reduction mod 256. -/
def stoiByte (s : List Char) : Option Nat :=
  (stoi16 s).map (fun v => (v % 256).toNat)

/-- The decode loop over the extracted tokens: each token is converted and
written to the next struct byte; a conversion exception (`none`) aborts
everything.  (Running out of tokens is handled by the caller: the loop
just stops, which is why the token list passed here is finite.) -/
def parseBytes : List (List Char) → Option (List Nat)
  | [] => some []
  | t :: ts =>
    match stoiByte t with
    | none => none
    | some b =>
      match parseBytes ts with
      | none => none
      | some bs => some (b :: bs)

/-- Parsing stage of `receiveMapleMessage` applied to a received line:
`memset` zero-fill, then at most `sizeof(MapleMsg) = 1028` tokens written
to consecutive struct bytes (offset 0 `command`, 1 `destAP`, 2 `originAP`,
3 `size`, 4.. `data`).  Returns the resulting message; `none` models the
uncaught `std::stoi` exception.  Note the function performs no format
validation: missing tokens simply leave the zeroed bytes in place and it
still returns successfully. -/
def receiveMapleMessage (s : List Char) : Option MapleMsg :=
  match parseBytes ((words s).take 1028) with
  | none => none
  | some bs =>
    let full := bs ++ List.replicate (1028 - bs.length) 0
    some { command := full.getD 0 0, destAP := full.getD 1 0,
           originAP := full.getD 2 0, size := full.getD 3 0,
           data := full.drop 4 }

/-- String-level wrapper for concrete test lines. -/
def receiveLine (s : String) : Option MapleMsg := receiveMapleMessage s.data

/-! ## Transport client: `VmuNetworkClient` (vmu_network.cpp 24-104)

Socket calls are oracles: one `PeekResult` for the single `recv(...,
MSG_PEEK)` of `isConnected`, and a list of `SendStep`s for the successive
`send` calls of the `sendRawMessage` loop, each paired with the elapsed
wall-clock milliseconds observed at that iteration's timeout check. -/

/-- Outcome of the non-blocking one-byte peek in `isConnected`:
`recv` returned 1 (`gotData`), returned 0 (`closedPeer`), or failed with
`EWOULDBLOCK`/`EAGAIN` (`errWB`) or any other error (`errOther`). -/
inductive PeekResult
  | gotData
  | closedPeer
  | errWB
  | errOther
deriving DecidableEq, Repr

/-- Mirror of `VmuNetworkClient::isConnected` (lines 24-58): takes the
current `connected` flag and the peek outcome, returns the boolean result
and the `connected` flag afterwards.  When `connected` is already false
the C++ returns before performing any peek, so the result ignores the
oracle. -/
def isConnectedProbe (connected : Bool) (p : PeekResult) : Bool × Bool :=
  if !connected then (false, connected)
  else
    match p with
    | .closedPeer => (false, false)
    | .errOther => (false, false)
    | .errWB => (true, connected)
    | .gotData => (true, connected)

/-- One `send` call outcome inside `sendRawMessage`: `wrote n` means the
call returned `n + 1 > 0` bytes; `closedZero` a zero return; `errWB` a
would-block error; `errHard` any other error. -/
inductive SendResult
  | wrote (n : Nat)
  | closedZero
  | errWB
  | errHard
deriving DecidableEq, Repr

/-- One iteration of the send loop: the `send` outcome plus the elapsed
milliseconds since `start_time` as read by the would-block branch's
timeout check. -/
structure SendStep where
  res : SendResult
  elapsedMs : Nat
deriving DecidableEq, Repr

/-- How `sendRawMessage` exits: every byte written (`success`, returns
true), the 5 ms deadline exceeded in the would-block branch (`timedOut`,
returns false), or a zero-byte/hard-error result (`hardError`, returns
false). -/
inductive SendOutcome
  | success
  | timedOut
  | hardError
deriving DecidableEq, Repr

/-- The `while (total_sent < message.length())` loop of `sendRawMessage`
(lines 70-102), step-indexed by the oracle list; `none` means the oracle
ran out before the loop exited.  Returns the exit taken and the
`connected` flag on exit (the flag is `true` on entry since the function
returns early otherwise). -/
def sendLoop (msgLen : Nat) : Nat → List SendStep → Option (SendOutcome × Bool)
  | totalSent, steps =>
    if msgLen ≤ totalSent then some (.success, true)
    else
      match steps with
      | [] => none
      | st :: rest =>
        match st.res with
        | .wrote n => sendLoop msgLen (totalSent + (n + 1)) rest
        | .closedZero => some (.hardError, false)
        | .errHard => some (.hardError, false)
        | .errWB =>
          if 5 < st.elapsedMs then some (.timedOut, true)
          else sendLoop msgLen totalSent rest

/-- Mirror of `VmuNetworkClient::sendRawMessage` (lines 61-104) for a
message of `msgLen` bytes, starting from `connected` flag `c`.  The pair
holds the exit kind and the `connected` flag afterwards. -/
def sendRawMessage (c : Bool) (msgLen : Nat) (steps : List SendStep) :
    Option (SendOutcome × Bool) :=
  if !c then some (.hardError, c) else sendLoop msgLen 0 steps

/-! ## Supervisor: `NetworkVmuManager` (vmu_network.cpp 160-292)

The held `std::unique_ptr<VmuNetworkClient>` is modelled as
`Option Bool`: `none` for no client, `some c` for a client whose
`connected` flag is `c`.  Wall-clock readings and socket outcomes arrive
through an `UpdateEnv` oracle per `update()` call. -/

/-- Mirror of `enum class NetworkVmuState`. -/
inductive NetworkVmuState
  | DISABLED
  | DISCONNECTED
  | CONNECTING
  | CONNECTED
  | RECONNECTING
deriving DecidableEq, Repr

/-- State of a `NetworkVmuManager`: the current lifecycle state, the
backoff counter, the `enabled` flag, and the held client (`none` models a
null `unique_ptr`).  The two `steady_clock` time points are not stored;
their derived readings come in through `UpdateEnv`. -/
structure NetworkVmuManager where
  current_state : NetworkVmuState
  backoff_seconds : Nat
  enabled : Bool
  client : Option Bool
deriving DecidableEq, Repr

/-- Environment of one `update()` call: the socket-level outcome a fresh
`connect()` attempt would have (`connectOk`), `getTimeInCurrentState()`
in seconds, the `shouldCheckHealth()` verdict, and the peek outcome the
health probe would observe. -/
structure UpdateEnv where
  connectOk : Bool
  timeInState : Nat
  shouldCheck : Bool
  peek : PeekResult
deriving DecidableEq, Repr

/-- The manager as constructed (lines 161-164): `enterState(DISABLED)`
with the field initializers `backoff_seconds = 1`, `enabled = false` and
a null client. -/
def initManager : NetworkVmuManager :=
  { current_state := .DISABLED, backoff_seconds := 1, enabled := false,
    client := none }

/-- Mirror of `enterState`: records the new state (the timestamp reset is
implicit: `timeInState` readings are per-call oracles). -/
def enterState (m : NetworkVmuManager) (s : NetworkVmuState) : NetworkVmuManager :=
  { m with current_state := s }

/-- Mirror of `VmuNetworkClient::connect()` (lines 340-365) at the level
visible to the manager: an already-connected client returns true at once;
otherwise the socket-level outcome `ok` decides, and the `connected` flag
ends up equal to the returned value. -/
def clientConnect (c : Bool) (ok : Bool) : Bool × Bool :=
  if c then (c, true) else (ok, ok)

/-- Mirror of `NetworkVmuManager::attemptConnection` (lines 189-195):
allocates a client (with `connected = false`) when none is held, then
calls `connect()` on it. -/
def attemptConnection (m : NetworkVmuManager) (ok : Bool) :
    NetworkVmuManager × Bool :=
  let c := (m.client.getD false)
  let r := clientConnect c ok
  ({ m with client := some r.1 }, r.2)

/-- Mirror of `isConnectionHealthy` (lines 184-187):
`client && client->isConnected()`, where the probe may flip the client's
`connected` flag.  Returns the client afterwards and the verdict. -/
def checkHealth (cl : Option Bool) (p : PeekResult) : Option Bool × Bool :=
  match cl with
  | none => (none, false)
  | some c =>
    let r := isConnectedProbe c p
    (some r.2, r.1)

/-- Mirror of `NetworkVmuManager::setEnabled` (lines 218-229). -/
def setEnabled (m : NetworkVmuManager) (enable : Bool) : NetworkVmuManager :=
  let m1 := { m with enabled := enable }
  if !m1.enabled && decide (m1.current_state ≠ .DISABLED) then
    enterState { m1 with client := none } .DISABLED
  else if m1.enabled && decide (m1.current_state = .DISABLED) then
    enterState m1 .DISCONNECTED
  else m1

/-- Mirror of `NetworkVmuManager::update` (lines 235-292), one tick. -/
def update (m : NetworkVmuManager) (e : UpdateEnv) : NetworkVmuManager :=
  match m.current_state with
  | .DISABLED =>
    if m.enabled then enterState m .DISCONNECTED else m
  | .DISCONNECTED =>
    if !m.enabled then enterState m .DISABLED
    else enterState m .CONNECTING
  | .CONNECTING =>
    if !m.enabled then enterState m .DISABLED
    else
      let r := attemptConnection m e.connectOk
      if r.2 then { enterState r.1 .CONNECTED with backoff_seconds := 1 }
      else enterState r.1 .RECONNECTING
  | .CONNECTED =>
    if !m.enabled then enterState { m with client := none } .DISABLED
    else if e.shouldCheck then
      let h := checkHealth m.client e.peek
      let m2 := { m with client := h.1 }
      if !h.2 then enterState m2 .RECONNECTING else m2
    else m
  | .RECONNECTING =>
    if !m.enabled then enterState m .DISABLED
    else if m.backoff_seconds ≤ e.timeInState then
      let r := attemptConnection m e.connectOk
      if r.2 then { enterState r.1 .CONNECTED with backoff_seconds := 1 }
      else
        enterState { r.1 with backoff_seconds := min (r.1.backoff_seconds * 2) 30 }
          .RECONNECTING
    else m

/-- One externally triggered step of the supervisor: an `update()` tick
with some environment, or a `setEnabled` call. -/
inductive ManagerStep : NetworkVmuManager → NetworkVmuManager → Prop
  | upd (m : NetworkVmuManager) (e : UpdateEnv) : ManagerStep m (update m e)
  | set (m : NetworkVmuManager) (b : Bool) : ManagerStep m (setEnabled m b)

/-- Manager states reachable from the freshly constructed manager. -/
def Reachable (m : NetworkVmuManager) : Prop :=
  Relation.ReflTransGen ManagerStep initManager m

/-- Space-joined token list: the shape of the line the encoder emits. -/
def joinSp : List (List Char) → List Char
  | [] => []
  | w :: ws => w ++ (ws.map (fun t => ' ' :: t)).flatten

/-- The token list of an encoded line: the four header bytes then the
used payload bytes, each through `setw2`. -/
def msgTokens (m : MapleMsg) : List (List Char) :=
  ([m.command, m.destAP, m.originAP, m.size] ++
    (List.range m.getDataSize).map (fun i => m.data.getD i 0)).map setw2

/-- An uppercase hex digit character (value 0-15). -/
def hexDigitUpper (n : Nat) : Char :=
  if n < 10 then Char.ofNat (48 + n) else Char.ofNat (55 + n)

/-- A lowercase hex digit character (value 0-15). -/
def hexDigitLower (n : Nat) : Char :=
  if n < 10 then Char.ofNat (48 + n) else Char.ofNat (87 + n)

/-- A byte as exactly two uppercase hex digits. -/
def byteHexUpper (b : Nat) : List Char := [hexDigitUpper (b / 16), hexDigitUpper (b % 16)]

/-- A byte as exactly two lowercase hex digits. -/
def byteHexLower (b : Nat) : List Char := [hexDigitLower (b / 16), hexDigitLower (b % 16)]

/-- The wire line exactly as the claim's words describe it: header bytes
then `wordCount*4` payload bytes, each as two UPPERCASE hex digits,
single spaces between fields, CR LF terminator.  Stated from the spec
for comparison against the encoder. -/
def specWireUpper (m : MapleMsg) : List Char :=
  joinSp (([m.command, m.destAP, m.originAP, m.size] ++
    (List.range (m.size * 4)).map (fun i => m.data.getD i 0)).map byteHexUpper) ++
    ['\r', '\n']

/-- The same wire shape with lowercase hex digits. -/
def specWireLower (m : MapleMsg) : List Char :=
  joinSp (([m.command, m.destAP, m.originAP, m.size] ++
    (List.range (m.size * 4)).map (fun i => m.data.getD i 0)).map byteHexLower) ++
    ['\r', '\n']

/-- Run-time invariant of the supervisor: the enabled flag can only be
false in `DISABLED` (only `setEnabled` writes it and it forces the state
in the same call); no client is held before the first connection attempt;
and a client in connected state is only held while `CONNECTED`. -/
def Inv (m : NetworkVmuManager) : Prop :=
  (m.enabled = false → m.current_state = .DISABLED) ∧
  ((m.current_state = .DISABLED ∨ m.current_state = .DISCONNECTED ∨
      m.current_state = .CONNECTING) → m.client = none) ∧
  (m.client = some true → m.current_state = .CONNECTED)

/-- Environment of a failed retry due as soon as the backoff expires:
`getTimeInCurrentState()` has just reached `backoff_seconds` and the
`connect()` attempt fails at socket level. -/
def retryEnv (m : NetworkVmuManager) : UpdateEnv :=
  { connectOk := false, timeInState := m.backoff_seconds, shouldCheck := false,
    peek := .errWB }

/-- The successive `backoff_seconds` values used (waited out) before each
of `n` consecutive failed reconnect attempts. -/
def backoffTrace : NetworkVmuManager → Nat → List Nat
  | _, 0 => []
  | m, n + 1 => m.backoff_seconds :: backoffTrace (update m (retryEnv m)) n

/-- Failing environment: time expired, connection attempt fails. -/
def eA : UpdateEnv :=
  { connectOk := false, timeInState := 0, shouldCheck := false, peek := .errWB }

/-- Succeeding environment: the connection attempt succeeds. -/
def eT : UpdateEnv :=
  { connectOk := true, timeInState := 0, shouldCheck := false, peek := .errWB }

/-- Enabled supervisor one tick after construction: `DISCONNECTED`. -/
def mDisc : NetworkVmuManager := setEnabled initManager true

/-- Next tick: `CONNECTING`. -/
def mConn : NetworkVmuManager := update mDisc eA

/-- After a failed attempt: `RECONNECTING` with backoff 1. -/
def mRec : NetworkVmuManager := update mConn eA

def mW : MapleMsg :=
  { command := 0xAB, destAP := 1, originAP := 0x20, size := 1,
    data := [0xDE, 0xAD, 0xBE, 0xEF] ++ List.replicate 1020 0 }

def mA : MapleMsg :=
  { command := 0xAB, destAP := 0, originAP := 0, size := 0,
    data := List.replicate 1024 0 }

def sB : List Char := "01 00 00 02".data

/-! ## Theorems -/

set_option maxRecDepth 4000

theorem setw2_tok : ∀ n, n < 256 → setw2 n ≠ [] ∧ ∀ c ∈ setw2 n, isSpace c = false := by
  decide

theorem stoiByte_setw2 : ∀ n, n < 256 → stoiByte (setw2 n) = some n := by
  decide

theorem joinSp_cons₂ (w x : List Char) (xs : List (List Char)) :
    joinSp (w :: x :: xs) = w ++ ' ' :: joinSp (x :: xs) := by
  simp [joinSp]

theorem wordsAux_append_nonspace (w : List Char) (hw : ∀ c ∈ w, isSpace c = false) :
    ∀ (acc rest : List Char), wordsAux acc (w ++ rest) = wordsAux (w.reverse ++ acc) rest := by
  induction w with
  | nil => intro acc rest; simp [wordsAux]
  | cons c w ih =>
    intro acc rest
    have hc : isSpace c = false := hw c (List.mem_cons_self c w)
    have hw2 : ∀ x ∈ w, isSpace x = false := fun x hx => hw x (List.mem_cons_of_mem _ hx)
    simp only [List.cons_append, wordsAux, hc, Bool.false_eq_true, if_false,
      List.append_eq]
    rw [ih hw2 (c :: acc) rest]
    simp

theorem words_joinSp (ws : List (List Char))
    (h : ∀ w ∈ ws, w ≠ [] ∧ ∀ c ∈ w, isSpace c = false) :
    words (joinSp ws ++ ['\r', '\n']) = ws := by
  induction ws with
  | nil => rfl
  | cons w ws ih =>
    obtain ⟨hw1, hw2⟩ := h w (List.mem_cons_self w ws)
    have hrest := fun u hu => h u (List.mem_cons_of_mem _ hu)
    have hne : (w.reverse).isEmpty = false := by
      simp [List.isEmpty_iff, hw1]
    cases ws with
    | nil =>
      simp only [words, joinSp, List.map_nil, List.flatten_nil, List.append_nil]
      rw [wordsAux_append_nonspace w hw2 [] ['\r', '\n']]
      simp only [List.append_nil]
      simp [wordsAux, isSpace, hne]
    | cons x xs =>
      rw [joinSp_cons₂, words, List.append_assoc, List.cons_append,
        wordsAux_append_nonspace w hw2 []]
      simp only [List.append_nil]
      have hsp : isSpace ' ' = true := by decide
      simp only [wordsAux, hsp, if_true, hne, Bool.false_eq_true, if_false,
        List.reverse_reverse]
      exact congrArg (w :: ·) (ih hrest)

theorem parseBytes_map_setw2 (bs : List Nat) (h : ∀ b ∈ bs, b < 256) :
    parseBytes (bs.map setw2) = some bs := by
  induction bs with
  | nil => rfl
  | cons b bs ih =>
    have hb : b < 256 := h b (List.mem_cons_self b bs)
    have h2 := fun x hx => h x (List.mem_cons_of_mem _ hx)
    simp only [List.map_cons, parseBytes, stoiByte_setw2 b hb, ih h2]

theorem parseBytes_length (ts : List (List Char)) (bs : List Nat)
    (h : parseBytes ts = some bs) : bs.length = ts.length := by
  induction ts generalizing bs with
  | nil => simp [parseBytes] at h; simp [← h]
  | cons t ts ih =>
    simp only [parseBytes] at h
    cases ht : stoiByte t with
    | none => rw [ht] at h; exact absurd h (by simp)
    | some b =>
      rw [ht] at h
      cases hr : parseBytes ts with
      | none => rw [hr] at h; exact absurd h (by simp)
      | some bs2 =>
        rw [hr] at h
        simp only [Option.some.injEq] at h
        simp [← h, ih bs2 hr]

theorem take_eq_range_map (l : List Nat) (k : Nat) (hk : k ≤ l.length) :
    l.take k = (List.range k).map (fun i => l.getD i 0) := by
  apply List.ext_getElem
  · simp [hk]
  · intro i h1 h2
    have hil : i < l.length := by simp at h1; omega
    simp only [List.getElem_take, List.getElem_map, List.getElem_range]
    rw [List.getD_eq_getElem l 0 hil]

theorem sendMapleMessage_eq_joinSp (m : MapleMsg) :
    sendMapleMessage m = joinSp (msgTokens m) ++ ['\r', '\n'] := by
  simp [sendMapleMessage, msgTokens, joinSp, List.map_map, Function.comp_def]

theorem msgBytes_lt (m : MapleMsg) (h : m.WF) :
    ∀ b ∈ [m.command, m.destAP, m.originAP, m.size] ++
      (List.range m.getDataSize).map (fun i => m.data.getD i 0), b < 256 := by
  obtain ⟨h1, h2, h3, h4, h5, h6⟩ := h
  have hds : m.getDataSize ≤ 1020 := by
    unfold MapleMsg.getDataSize; omega
  intro b hb
  simp only [List.mem_append, List.mem_cons, List.mem_map, List.mem_range,
    List.not_mem_nil, or_false] at hb
  rcases hb with (rfl | rfl | rfl | rfl) | ⟨i, hi, rfl⟩
  · exact h1
  · exact h2
  · exact h3
  · exact h4
  · have hil : i < m.data.length := by omega
    rw [List.getD_eq_getElem m.data 0 hil]
    exact h6 _ (List.getElem_mem hil)

theorem words_sendMapleMessage (m : MapleMsg) (h : m.WF) :
    words (sendMapleMessage m) = msgTokens m := by
  rw [sendMapleMessage_eq_joinSp]
  apply words_joinSp
  intro w hw
  simp only [msgTokens, List.mem_map] at hw
  obtain ⟨b, hb, rfl⟩ := hw
  exact setw2_tok b (msgBytes_lt m h b hb)

/-- C1 main computation: decoding an encoded line recovers header and used
payload, with the unused payload tail zeroed by the decoder's `memset`. -/
theorem receive_send_core (m : MapleMsg) (h : m.WF) :
    receiveMapleMessage (sendMapleMessage m) = some
      { command := m.command, destAP := m.destAP, originAP := m.originAP,
        size := m.size,
        data := m.data.take m.getDataSize ++
          List.replicate (1024 - m.getDataSize) 0 } := by
  have hwf := h
  obtain ⟨h1, h2, h3, h4, h5, h6⟩ := hwf
  have hds : m.getDataSize ≤ 1020 := by unfold MapleMsg.getDataSize; omega
  have hpre : ((List.range m.getDataSize).map (fun i => m.data.getD i 0)) =
      m.data.take m.getDataSize :=
    (take_eq_range_map m.data m.getDataSize (by omega)).symm
  have hbytes : parseBytes (msgTokens m) = some
      (m.command :: m.destAP :: m.originAP :: m.size ::
        (List.range m.getDataSize).map (fun i => m.data.getD i 0)) := by
    have := parseBytes_map_setw2 _ (msgBytes_lt m h)
    simpa [msgTokens] using this
  have htk : (msgTokens m).take 1028 = msgTokens m := by
    apply List.take_of_length_le
    simp [msgTokens]
    omega
  unfold receiveMapleMessage
  rw [words_sendMapleMessage m h, htk, hbytes]
  simp only [List.length_cons, List.length_map, List.length_range]
  congr 1
  refine MapleMsg.mk.injEq .. |>.mpr ?_
  refine ⟨by simp [List.getD], by simp [List.getD], by simp [List.getD],
    by simp [List.getD], ?_⟩
  simp only [List.cons_append, List.drop_succ_cons, List.drop_zero]
  rw [hpre]
  congr 2
  omega

/-- C1: round-trip law.  For every well-formed `MapleMsg` whose used
payload fits the 1024-byte buffer, decoding the encoded line recovers the
four header fields and the first `wordCount*4` payload bytes. -/
theorem receive_send_roundtrip (m : MapleMsg) (h : m.WF) (hcap : m.size * 4 ≤ 1024) :
    ∃ m2, receiveMapleMessage (sendMapleMessage m) = some m2 ∧
      m2.command = m.command ∧ m2.destAP = m.destAP ∧ m2.originAP = m.originAP ∧
      m2.size = m.size ∧ m2.data.take (m.size * 4) = m.data.take (m.size * 4) := by
  refine ⟨_, receive_send_core m h, rfl, rfl, rfl, rfl, ?_⟩
  have hlen : (m.data.take m.getDataSize).length = m.getDataSize := by
    rw [List.length_take]
    have : m.data.length = 1024 := h.2.2.2.2.1
    have hds : m.getDataSize ≤ 1020 := by
      have : m.size < 256 := h.2.2.2.1
      unfold MapleMsg.getDataSize; omega
    omega
  show (m.data.take m.getDataSize ++ List.replicate (1024 - m.getDataSize) 0).take (m.size * 4) = _
  have hds4 : m.getDataSize = m.size * 4 := rfl
  rw [← hds4, List.take_left' hlen]

/-- C1 witness: the round-trip law applied to a concrete one-word frame. -/
theorem receive_send_roundtrip_witness :
    ∃ m2, receiveMapleMessage (sendMapleMessage mW) = some m2 ∧
      m2.command = mW.command ∧ m2.destAP = mW.destAP ∧ m2.originAP = mW.originAP ∧
      m2.size = mW.size ∧ m2.data.take (mW.size * 4) = mW.data.take (mW.size * 4) :=
  receive_send_roundtrip mW
    (by
      refine ⟨by norm_num [mW], by norm_num [mW], by norm_num [mW], by norm_num [mW],
        by simp only [mW, List.length_append, List.length_cons, List.length_replicate,
          List.length_nil], ?_⟩
      intro b hb
      simp only [mW, List.mem_append, List.mem_cons, List.not_mem_nil, or_false,
        List.mem_replicate] at hb
      rcases hb with (rfl | rfl | rfl | rfl) | ⟨-, rfl⟩ <;> norm_num)
    (by norm_num [mW])

/-- C2 evidence: the decoder in `vmu_network.cpp` performs no format
validation.  On "AB CD" (two header tokens only) it returns success with
the two parsed bytes and every remaining struct byte left at the `memset`
zero; on a non-hex token it raises (models the uncaught `std::stoi`
exception, i.e. a crash), not a format-error return. -/
theorem receive_no_format_error :
    receiveLine "AB CD" = some
      { command := 0xAB, destAP := 0xCD, originAP := 0, size := 0,
        data := List.replicate 1024 0 } ∧
    receiveLine "ZZ 00 00 00" = none := by
  exact ⟨rfl, rfl⟩

/-- C3: bounds safety of the decoder.  Whatever the input text and
whatever `wordCount` its header claims, a successful decode yields a
payload buffer of exactly 1024 bytes (no write beyond the struct), and
the result depends only on the first `sizeof(MapleMsg) = 1028` tokens of
the text (the loop never reads further). -/
theorem receive_bounds (s t : List Char) (m : MapleMsg)
    (h : receiveMapleMessage s = some m)
    (ht : (words t).take 1028 = (words s).take 1028) :
    m.data.length = 1024 ∧ receiveMapleMessage t = receiveMapleMessage s := by
  constructor
  · unfold receiveMapleMessage at h
    cases hp : parseBytes ((words s).take 1028) with
    | none => rw [hp] at h; exact absurd h (by simp)
    | some bs =>
      rw [hp] at h
      simp only [Option.some.injEq] at h
      have hbl : bs.length ≤ 1028 := by
        have h1 := parseBytes_length _ bs hp
        have h2 : ((words s).take 1028).length ≤ 1028 := by
          simp [List.length_take]
        omega
      rw [← h]
      simp only [List.length_drop, List.length_append, List.length_replicate]
      omega
  · unfold receiveMapleMessage
    rw [ht]

/-- C3 witness: the bounds theorem applied to a concrete header line. -/
theorem receive_bounds_witness :
    ({ command := 1, destAP := 0, originAP := 0, size := 2,
       data := List.replicate 1024 0 } : MapleMsg).data.length = 1024 ∧
    receiveMapleMessage sB = receiveMapleMessage sB :=
  receive_bounds sB sB _ rfl rfl

/-- C9 counterexample: the encoder does not use `std::uppercase`, so the
line for a frame with command byte `0xAB` starts with "ab", not "AB";
the encoded line differs from the uppercase wire text the claim
prescribes. -/
theorem sendMapleMessage_not_uppercase :
    sendMapleMessage mA ≠ specWireUpper mA := by
  decide

set_option maxRecDepth 8000 in
theorem setw2_eq_byteHexLower : ∀ b, b < 256 → setw2 b = byteHexLower b := by
  decide

/-- C9 amended: for every well-formed frame the encoded line is exactly
`command destAddr originAddr wordCount` followed by the `wordCount*4`
used payload bytes, each as exactly two LOWERCASE hex digits, fields
separated by single spaces, terminated by CR LF. -/
theorem sendMapleMessage_wire_format (m : MapleMsg) (h : m.WF) :
    sendMapleMessage m = specWireLower m := by
  rw [sendMapleMessage_eq_joinSp]
  unfold specWireLower
  congr 1
  unfold msgTokens
  have : m.getDataSize = m.size * 4 := rfl
  rw [this]
  apply congrArg
  apply List.map_congr_left
  intro b hb
  exact setw2_eq_byteHexLower b (msgBytes_lt m h b hb)

/-- C9 witness: the amended (lowercase) wire-format law at the concrete
frame `mW`. -/
theorem sendMapleMessage_wire_format_witness :
    sendMapleMessage mW = specWireLower mW :=
  sendMapleMessage_wire_format mW
    (by
      refine ⟨by norm_num [mW], by norm_num [mW], by norm_num [mW], by norm_num [mW],
        by simp only [mW, List.length_append, List.length_cons, List.length_replicate,
          List.length_nil], ?_⟩
      intro b hb
      simp only [mW, List.mem_append, List.mem_cons, List.not_mem_nil, or_false,
        List.mem_replicate] at hb
      rcases hb with (rfl | rfl | rfl | rfl) | ⟨-, rfl⟩ <;> norm_num)

theorem inv_init : Inv initManager := by
  refine ⟨fun _ => rfl, fun _ => rfl, fun h => by simp [initManager] at h⟩

set_option maxHeartbeats 1000000 in
theorem inv_step (m m2 : NetworkVmuManager) (h : ManagerStep m m2) (hi : Inv m) :
    Inv m2 := by
  obtain ⟨i1, i2, i3⟩ := hi
  cases h with
  | upd e =>
    obtain ⟨cs, bo, en, cl⟩ := m
    obtain ⟨ok, ti, sc, pk⟩ := e
    simp only [Inv] at i1 i2 i3 ⊢
    cases cs <;> cases en <;> rcases cl with - | b <;> (try cases b) <;>
      cases ok <;> cases sc <;> cases pk <;>
      simp_all [update, enterState, attemptConnection, clientConnect, checkHealth,
        isConnectedProbe] <;>
      split_ifs <;> simp_all
  | set b =>
    obtain ⟨cs, bo, en, cl⟩ := m
    simp only [Inv] at i1 i2 i3 ⊢
    cases cs <;> cases b <;>
      simp_all [setEnabled, enterState]

theorem reachable_inv (m : NetworkVmuManager) (h : Reachable m) : Inv m := by
  induction h with
  | refl => exact inv_init
  | tail _ hs ih => exact inv_step _ _ hs ih

theorem reconnect_fail_step (m : NetworkVmuManager)
    (h1 : m.current_state = .RECONNECTING) (h2 : m.enabled = true)
    (h3 : m.client ≠ some true) :
    update m (retryEnv m) =
      { current_state := .RECONNECTING,
        backoff_seconds := min (m.backoff_seconds * 2) 30, enabled := true,
        client := some false } := by
  obtain ⟨cs, bo, en, cl⟩ := m
  simp only at h1 h2 h3
  subst h1; subst h2
  rcases cl with - | b
  · simp [update, retryEnv, enterState, attemptConnection, clientConnect]
  · cases b
    · simp [update, retryEnv, enterState, attemptConnection, clientConnect]
    · exact absurd rfl h3

theorem min_double (k : Nat) : min (min (2 ^ k) 30 * 2) 30 = min (2 ^ (k + 1)) 30 := by
  have h2 : 2 ^ (k + 1) = 2 ^ k * 2 := by rw [pow_succ]
  rcases le_total 30 (2 ^ k) with h | h
  · rw [Nat.min_eq_right h]
    have : 30 ≤ 2 ^ (k + 1) := by omega
    rw [Nat.min_eq_right this]
    omega
  · rw [Nat.min_eq_left h, h2]

theorem backoffTrace_formula (n : Nat) :
    ∀ (k : Nat) (m : NetworkVmuManager), m.current_state = .RECONNECTING →
      m.enabled = true → m.client ≠ some true →
      m.backoff_seconds = min (2 ^ k) 30 →
      backoffTrace m n = (List.range n).map (fun i => min (2 ^ (k + i)) 30) := by
  induction n with
  | zero => intro k m _ _ _ _; rfl
  | succ n ih =>
    intro k m h1 h2 h3 hb
    rw [backoffTrace, reconnect_fail_step m h1 h2 h3]
    have hnext := ih (k + 1)
      { current_state := .RECONNECTING,
        backoff_seconds := min (m.backoff_seconds * 2) 30, enabled := true,
        client := some false }
      rfl rfl (by simp) (by simp only [hb, min_double])
    rw [hnext, hb, List.range_succ_eq_map, List.map_cons, List.map_map]
    refine congrArg₂ _ (by rw [Nat.add_zero]) ?_
    apply List.map_congr_left
    intro i _
    simp only [Function.comp_apply]
    congr 1
    simp only [Nat.succ_eq_add_one, pow_succ]
    ring

set_option maxHeartbeats 1000000 in
theorem update_connected_char (m : NetworkVmuManager) (e : UpdateEnv)
    (h : (update m e).current_state = .CONNECTED)
    (hne : m.current_state ≠ .CONNECTED) :
    (m.current_state = .CONNECTING ∨ m.current_state = .RECONNECTING) ∧
    m.enabled = true ∧ (update m e).backoff_seconds = 1 ∧
    (m.client ≠ some true → e.connectOk = true) := by
  obtain ⟨cs, bo, en, cl⟩ := m
  obtain ⟨ok, ti, sc, pk⟩ := e
  cases cs <;> cases en <;> cases ok <;>
    rcases cl with - | b <;> (try cases b) <;>
    simp_all [update, enterState, attemptConnection, clientConnect, checkHealth,
      isConnectedProbe] <;>
    split_ifs at h ⊢ <;> simp_all

/-- C4: backoff sequence.  In a reachable `RECONNECTING` state at the
start of a failure run (`backoff_seconds = 1`, as after construction or
any successful connection), the waits before `n` successive failed
retries are exactly `min (2^i) 30`, i.e. 1, 2, 4, 8, 16, 30, 30, ...;
and every transition into `CONNECTED` resets `backoff_seconds` to 1. -/
theorem backoff_sequence (m : NetworkVmuManager) (hr : Reachable m)
    (h1 : m.current_state = .RECONNECTING) (h2 : m.enabled = true)
    (h3 : m.backoff_seconds = 1) (n : Nat) :
    backoffTrace m n = (List.range n).map (fun i => min (2 ^ i) 30) ∧
    ∀ (m2 : NetworkVmuManager) (e : UpdateEnv),
      (update m2 e).current_state = .CONNECTED →
      m2.current_state ≠ .CONNECTED → (update m2 e).backoff_seconds = 1 := by
  constructor
  · have h4 : m.client ≠ some true := by
      intro hc
      have hcc := (reachable_inv m hr).2.2 hc
      rw [h1] at hcc
      exact absurd hcc (by simp)
    have hf := backoffTrace_formula n 0 m h1 h2 h4 (by simpa using h3)
    simpa using hf
  · intro m2 e h hne
    exact (update_connected_char m2 e h hne).2.2.1

/-- C5: disable overrides everything.  From any reachable supervisor
state, `setEnabled false` followed by one `update()` tick leaves the
supervisor `DISABLED` with no client held. -/
theorem disable_overrides_all (m : NetworkVmuManager) (e : UpdateEnv)
    (hr : Reachable m) :
    (update (setEnabled m false) e).current_state = .DISABLED ∧
    (update (setEnabled m false) e).client = none := by
  obtain ⟨i1, i2, i3⟩ := reachable_inv m hr
  obtain ⟨cs, bo, en, cl⟩ := m
  cases cs
  case DISABLED =>
    have hcl : cl = none := i2 (Or.inl rfl)
    subst hcl
    simp [setEnabled, update, enterState]
  all_goals simp [setEnabled, update, enterState]

/-- C6: in every reachable execution, the supervisor enters `CONNECTED`
only through the `CONNECTING` or `RECONNECTING` branch of `update()`
after a `connect()` call that succeeded, and `setEnabled` never makes
the state `CONNECTED`. -/
theorem connected_only_via_connect :
    (∀ (m : NetworkVmuManager) (e : UpdateEnv), Reachable m →
      (update m e).current_state = .CONNECTED → m.current_state ≠ .CONNECTED →
      (m.current_state = .CONNECTING ∨ m.current_state = .RECONNECTING) ∧
        e.connectOk = true ∧ m.enabled = true) ∧
    (∀ (m : NetworkVmuManager) (b : Bool),
      (setEnabled m b).current_state = .CONNECTED →
      m.current_state = .CONNECTED) := by
  constructor
  · intro m e hr h hne
    obtain ⟨hst, hen, -, himp⟩ := update_connected_char m e h hne
    exact ⟨hst, himp (fun hc => hne ((reachable_inv m hr).2.2 hc)), hen⟩
  · intro m b h
    obtain ⟨cs, bo, en, cl⟩ := m
    cases cs <;> cases b <;> simp_all [setEnabled, enterState]

/-- C10: `setEnabled` acts synchronously.  Disabling from any
non-`DISABLED` state tears the client down and forces `DISABLED` before
returning; enabling from `DISABLED` moves to `DISCONNECTED` before
returning; no `update()` tick is involved. -/
theorem setEnabled_synchronous (m : NetworkVmuManager) :
    (m.current_state ≠ .DISABLED →
      (setEnabled m false).current_state = .DISABLED ∧
        (setEnabled m false).client = none) ∧
    (m.current_state = .DISABLED →
      (setEnabled m true).current_state = .DISCONNECTED) := by
  obtain ⟨cs, bo, en, cl⟩ := m
  constructor <;> intro h <;> cases cs <;> simp_all [setEnabled, enterState]

theorem mConn_reachable : Reachable mConn :=
  Relation.ReflTransGen.tail
    (Relation.ReflTransGen.tail Relation.ReflTransGen.refl
      (ManagerStep.set initManager true))
    (ManagerStep.upd mDisc eA)

theorem mRec_reachable : Reachable mRec :=
  Relation.ReflTransGen.tail mConn_reachable (ManagerStep.upd mConn eA)

/-- C4 witness: seven failed retries from a concrete reachable
`RECONNECTING` state wait exactly 1, 2, 4, 8, 16, 30, 30 seconds. -/
theorem backoff_sequence_witness :
    backoffTrace mRec 7 = (List.range 7).map (fun i => min (2 ^ i) 30) ∧
    ∀ (m2 : NetworkVmuManager) (e : UpdateEnv),
      (update m2 e).current_state = .CONNECTED →
      m2.current_state ≠ .CONNECTED → (update m2 e).backoff_seconds = 1 :=
  backoff_sequence mRec mRec_reachable rfl rfl rfl 7

/-- C5 witness: the disable-then-tick law at the initial state. -/
theorem disable_overrides_all_witness :
    (update (setEnabled initManager false) eA).current_state = .DISABLED ∧
    (update (setEnabled initManager false) eA).client = none :=
  disable_overrides_all initManager eA Relation.ReflTransGen.refl

/-- C6 witness: the characterization applied to the concrete
`CONNECTING` state whose connect attempt succeeds. -/
theorem connected_only_via_connect_witness :
    (mConn.current_state = .CONNECTING ∨ mConn.current_state = .RECONNECTING) ∧
      eT.connectOk = true ∧ mConn.enabled = true :=
  connected_only_via_connect.1 mConn eT mConn_reachable (by decide) (by decide)

/-- C10 witness: synchronous disable from `DISCONNECTED` and synchronous
enable from `DISABLED`. -/
theorem setEnabled_synchronous_witness :
    ((setEnabled mDisc false).current_state = .DISABLED ∧
      (setEnabled mDisc false).client = none) ∧
    (setEnabled initManager true).current_state = .DISCONNECTED :=
  ⟨(setEnabled_synchronous mDisc).1 (by decide),
    (setEnabled_synchronous initManager).2 rfl⟩

theorem sendLoop_flag (msgLen : Nat) (steps : List SendStep) :
    ∀ (t : Nat) (o : SendOutcome) (c : Bool),
      sendLoop msgLen t steps = some (o, c) →
      (o = .timedOut → c = true) ∧ (o = .hardError → c = false) := by
  induction steps with
  | nil =>
    intro t o c h
    unfold sendLoop at h
    split at h
    · simp only [Option.some.injEq, Prod.mk.injEq] at h
      constructor <;> intro ho <;> rw [← h.1] at ho <;> simp at ho
    · exact absurd h (by simp)
  | cons st rest ih =>
    intro t o c h
    obtain ⟨res, el⟩ := st
    unfold sendLoop at h
    split at h
    · simp only [Option.some.injEq, Prod.mk.injEq] at h
      constructor <;> intro ho <;> rw [← h.1] at ho <;> simp at ho
    · cases res with
      | wrote n =>
        replace h : sendLoop msgLen (t + (n + 1)) rest = some (o, c) := h
        exact ih _ o c h
      | closedZero =>
        replace h :
            (some (SendOutcome.hardError, false) : Option (SendOutcome × Bool)) =
              some (o, c) := h
        simp only [Option.some.injEq, Prod.mk.injEq] at h
        constructor <;> intro ho
        · rw [← h.1] at ho; simp at ho
        · exact h.2.symm
      | errHard =>
        replace h :
            (some (SendOutcome.hardError, false) : Option (SendOutcome × Bool)) =
              some (o, c) := h
        simp only [Option.some.injEq, Prod.mk.injEq] at h
        constructor <;> intro ho
        · rw [← h.1] at ho; simp at ho
        · exact h.2.symm
      | errWB =>
        replace h :
            (if 5 < el then some (SendOutcome.timedOut, true)
              else sendLoop msgLen t rest) = some (o, c) := h
        split at h
        · simp only [Option.some.injEq, Prod.mk.injEq] at h
          constructor <;> intro ho
          · exact h.2.symm
          · rw [← h.1] at ho; simp at ho
        · exact ih _ o c h

/-- C7: `sendRawMessage` failure modes.  Starting connected, if the loop
exits because the 5 ms deadline passed in the would-block branch, the
`connected` flag is left `true`; if it exits because `send` returned zero
or a non-would-block error, the flag is `false` on return. -/
theorem send_timeout_vs_hard (msgLen : Nat) (steps : List SendStep)
    (o : SendOutcome) (c : Bool)
    (h : sendRawMessage true msgLen steps = some (o, c)) :
    (o = .timedOut → c = true) ∧ (o = .hardError → c = false) := by
  unfold sendRawMessage at h
  simp only [Bool.not_true, Bool.false_eq_true, if_false] at h
  exact sendLoop_flag msgLen steps 0 o c h

/-- C7 witness: a run that times out after one would-block keeps the flag
set; a run hitting a hard error clears it. -/
theorem send_timeout_vs_hard_witness :
    ((SendOutcome.timedOut = SendOutcome.timedOut → true = true) ∧
      (SendOutcome.timedOut = SendOutcome.hardError → true = false)) ∧
    ((SendOutcome.hardError = SendOutcome.timedOut → false = true) ∧
      (SendOutcome.hardError = SendOutcome.hardError → false = false)) :=
  ⟨send_timeout_vs_hard 1 [⟨.errWB, 6⟩] .timedOut true rfl,
    send_timeout_vs_hard 1 [⟨.errHard, 0⟩] .hardError false rfl⟩

/-- C8: the liveness probe.  With the flag set, a zero-byte peek or a
non-would-block error returns false and clears the flag; would-block or
available data return true and keep it; with the flag already clear the
probe is skipped: the result is false, unchanged, and independent of the
socket. -/
theorem liveness_probe :
    isConnectedProbe true .closedPeer = (false, false) ∧
    isConnectedProbe true .errOther = (false, false) ∧
    isConnectedProbe true .errWB = (true, true) ∧
    isConnectedProbe true .gotData = (true, true) ∧
    ∀ p q : PeekResult, isConnectedProbe false p = (false, false) ∧
      isConnectedProbe false p = isConnectedProbe false q :=
  ⟨rfl, rfl, rfl, rfl, fun _ _ => ⟨rfl, rfl⟩⟩

end VmuConn
